import Mathlib

/-!
Verification development for the connectorAgent repository.

This file shallowly embeds the content-extraction pipeline of
`src/app.py` (`scrape_comprehensive` lines 613-720 and
`_filter_page_content_for_ai` lines 802-970) and the cURL helpers of
`src/chat_app.py` (`_extract_method`, `_extract_url`), and proves or
refutes the frozen claims about them.
-/

namespace ConnectorAgent

set_option maxRecDepth 40000

/-! ## String utilities mirroring the Python primitives used by the code -/

/-- Whitespace characters removed by Python's `str.strip()` (ASCII part). -/
def isWS (c : Char) : Bool :=
  c = ' ' || c = '\t' || c = '\n' || c = '\r' || c = '\x0b' || c = '\x0c'

/-- Python `str.strip()`: drop leading and trailing whitespace. -/
def stripStr (s : String) : String :=
  ⟨((s.data.dropWhile isWS).reverse.dropWhile isWS).reverse⟩

/-- Python `str.lower()` (ASCII part), used for keyword matching. -/
def lowerStr (s : String) : String :=
  ⟨s.data.map Char.toLower⟩

/-- `takesPre pat l` holds when `pat` starts the list `l`. -/
def takesPre : List Char → List Char → Bool
  | [], _ => true
  | _ :: _, [] => false
  | a :: as, b :: bs => a = b && takesPre as bs

/-- `subAt pat l` decides whether `pat` occurs contiguously inside `l`
(Python's `pat in l`). -/
def subAt : List Char → List Char → Bool
  | pat, [] => takesPre pat []
  | pat, c :: t => takesPre pat (c :: t) || subAt pat t

/-- Python substring test `pat in s`. -/
def strContains (s pat : String) : Bool :=
  subAt pat.data s.data

/-- `strHasSub sub s`: `sub` occurs contiguously inside `s` (propositional form). -/
def strHasSub (sub s : String) : Prop :=
  ∃ p q, s.data = p ++ sub.data ++ q

/-- Concatenation of a list of strings (Python `+=` accumulation). -/
def strJoin : List String → String
  | [] => ""
  | x :: xs => x ++ strJoin xs

/-- Python `' '.join(l)`. -/
def joinSp : List String → String
  | [] => ""
  | [x] => x
  | x :: y :: xs => x ++ " " ++ joinSp (y :: xs)

theorem takesPre_iff (pat l : List Char) : takesPre pat l = true ↔ ∃ q, l = pat ++ q := by
  induction pat generalizing l with
  | nil => simp [takesPre]
  | cons a as ih =>
    cases l with
    | nil => simp [takesPre]
    | cons b bs =>
      simp only [takesPre, Bool.and_eq_true, decide_eq_true_eq, ih, List.cons_append,
        List.cons.injEq]
      constructor
      · rintro ⟨rfl, q, rfl⟩; exact ⟨q, rfl, rfl⟩
      · rintro ⟨q, rfl, rfl⟩; exact ⟨rfl, q, rfl⟩

theorem subAt_iff (pat l : List Char) : subAt pat l = true ↔ ∃ p q, l = p ++ pat ++ q := by
  induction l with
  | nil =>
    simp only [subAt, takesPre_iff]
    constructor
    · rintro ⟨q, h⟩
      exact ⟨[], q, by simpa using h⟩
    · rintro ⟨p, q, h⟩
      refine ⟨q, ?_⟩
      have hp : p = [] := by
        cases p with
        | nil => rfl
        | cons x xs => simp at h
      subst hp
      simpa using h
  | cons c t ih =>
    simp only [subAt, Bool.or_eq_true, takesPre_iff, ih]
    constructor
    · rintro (⟨q, h⟩ | ⟨p, q, h⟩)
      · exact ⟨[], q, by simpa using h⟩
      · exact ⟨c :: p, q, by simp [h]⟩
    · rintro ⟨p, q, h⟩
      cases p with
      | nil => exact Or.inl ⟨q, by simpa using h⟩
      | cons x xs =>
        simp only [List.cons_append, List.cons.injEq] at h
        exact Or.inr ⟨xs, q, h.2⟩

theorem strContains_iff (s pat : String) : strContains s pat = true ↔ strHasSub pat s := by
  simp [strContains, strHasSub, subAt_iff]


/-! ## Parsed document trees (the BeautifulSoup view used by `scrape_comprehensive`)

An `HNode` is either a text node or an element with a tag, a list of CSS
classes and an ordered list of children. Nodes are identified by their
position path (child indices from the document root), replacing Python's
object-identity-based membership in `extracted_elements`. -/

inductive HNode where
  | text : String → HNode
  | elem : String → List String → List HNode → HNode

/-- The tag of an element node (`""` for text nodes). -/
def tagOf : HNode → String
  | .text _ => ""
  | .elem t _ _ => t

/-- The CSS classes of an element node (`div.get('class', [])`). -/
def classesOf : HNode → List String
  | .text _ => []
  | .elem _ cl _ => cl

mutual

/-- `node.get_text()`: concatenation of all descendant text. -/
def getText : HNode → String
  | .text s => s
  | .elem _ _ cs => getTextL cs

def getTextL : List HNode → String
  | [] => ""
  | c :: cs => getText c ++ getTextL cs

end

/-- A node position: the list of child indices from the root. -/
abbrev NPath := List Nat

mutual

/-- All descendant elements of the children `cs`, starting at child
index `i`, in document (pre-)order, each with its relative path.
This is `node.find_all()` restricted to element nodes. -/
def elemsFrom : Nat → List HNode → List (NPath × HNode)
  | _, [] => []
  | i, c :: cs => subOf i c ++ elemsFrom (i + 1) cs

/-- The element occurrences contributed by the single child `c` at index `i`:
`c` itself (when it is an element) followed by its descendants. -/
def subOf : Nat → HNode → List (NPath × HNode)
  | _, .text _ => []
  | i, .elem t cl cc =>
      ([i], HNode.elem t cl cc) :: (elemsFrom 0 cc).map (fun q => (i :: q.1, q.2))

end

/-- All descendant elements of a node with their relative paths
(`node.find_all()` with no tag filter). -/
def allElems : HNode → List (NPath × HNode)
  | .text _ => []
  | .elem _ _ cs => elemsFrom 0 cs

/-- `node.find_all(tags)`: descendant elements whose tag is in `tags`. -/
def findAll (tags : List String) (n : HNode) : List (NPath × HNode) :=
  (allElems n).filter (fun pn => decide (tagOf pn.2 ∈ tags))

/-- The stripped text of a node, as computed throughout `scrape_comprehensive`. -/
def stext (n : HNode) : String :=
  stripStr (getText n)

/-! ## Hierarchical deduplication (`scrape_comprehensive`, lines 613-720) -/

/-- Paths of all descendants of the node at path `p`
(`for child in container.find_all(): extracted_elements.add(child)`). -/
def coverDesc (p : NPath) (n : HNode) : List NPath :=
  (allElems n).map (fun q => p ++ q.1)

/-- Descendants plus the node itself (paragraph and blockquote passes). -/
def coverDescSelf (p : NPath) (n : HNode) : List NPath :=
  coverDesc p n ++ [p]

/-- Only the node itself (span pass). -/
def coverSelf (p : NPath) (_ : HNode) : List NPath :=
  [p]

/-- Section/article condition (line 626):
`section_text and len(section_text) > 50 and len(section_text) < 1500`. -/
def predSection (n : HNode) : Bool :=
  decide (stext n ≠ "" ∧ 50 < (stext n).length ∧ (stext n).length < 1500)

/-- API-related div class fragments (line 646). -/
def apiClasses : List String :=
  ["endpoint", "parameter", "example", "code", "request", "response", "method"]

/-- Div condition (lines 644-650): API-looking class (or no class) and
`div_text and len(div_text) > 10 and len(div_text) < 1000`. -/
def predDiv (n : HNode) : Bool :=
  (apiClasses.any (fun a => strContains (lowerStr (joinSp (classesOf n))) a)
      || decide (classesOf n = []))
    && decide (stext n ≠ "" ∧ 10 < (stext n).length ∧ (stext n).length < 1000)

/-- Paragraph condition (line 669):
`p_text and len(p_text) > 10 and len(p_text) < 800`. -/
def predPara (n : HNode) : Bool :=
  decide (stext n ≠ "" ∧ 10 < (stext n).length ∧ (stext n).length < 800)

/-- Blockquote condition (line 689): `bq_text and len(bq_text) < 1200`. -/
def predBq (n : HNode) : Bool :=
  decide (stext n ≠ "" ∧ (stext n).length < 1200)

/-- Span keyword vocabulary (lines 709-711). -/
def apiSpanKeywords : List String :=
  ["string", "number", "boolean", "required", "optional", "enum",
   "get", "post", "put", "delete", "patch", "application/json",
   "bearer", "token", "auth", "api", "endpoint", "header"]

/-- Span condition (lines 713-714): nonempty, `2 < len < 50`, and some
API keyword occurs in the lowered text. -/
def predSpan (n : HNode) : Bool :=
  decide (stext n ≠ "" ∧ 2 < (stext n).length ∧ (stext n).length < 50)
    && apiSpanKeywords.any (fun kw => strContains (lowerStr (stext n)) kw)

/-- One category pass of the hierarchical extraction: iterate the items in
document order; when `check` is set, skip items already covered; when the
category condition holds, emit the item and add `cover p n` to the covered
set; otherwise skip the item leaving the covered set unchanged. -/
def runPass (check : Bool) (pred : HNode → Bool) (cover : NPath → HNode → List NPath) :
    List (NPath × HNode) → List NPath → List (NPath × HNode) × List NPath
  | [], cov => ([], cov)
  | (p, n) :: rest, cov =>
    if check ∧ p ∈ cov then
      runPass check pred cover rest cov
    else if pred n then
      let out := runPass check pred cover rest (cov ++ cover p n)
      ((p, n) :: out.1, out.2)
    else
      runPass check pred cover rest cov

/-- Priority 1 (lines 623-637): sections and articles; no covered check. -/
def secPass (root : HNode) : List (NPath × HNode) × List NPath :=
  runPass false predSection coverDesc (findAll ["section", "article"] root) []

/-- Priority 2 (lines 640-660): divs. -/
def divPass (root : HNode) : List (NPath × HNode) × List NPath :=
  runPass true predDiv coverDesc (findAll ["div"] root) (secPass root).2

/-- Priority 3 (lines 663-681): paragraphs; cover descendants and self. -/
def paraPass (root : HNode) : List (NPath × HNode) × List NPath :=
  runPass true predPara coverDescSelf (findAll ["p"] root) (divPass root).2

/-- Priority 4 (lines 684-699): blockquotes; cover descendants and self. -/
def bqPass (root : HNode) : List (NPath × HNode) × List NPath :=
  runPass true predBq coverDescSelf (findAll ["blockquote"] root) (paraPass root).2

/-- Priority 5 (lines 703-720): spans; cover only the span itself. -/
def spanPass (root : HNode) : List (NPath × HNode) × List NPath :=
  runPass true predSpan coverSelf (findAll ["span"] root) (bqPass root).2

/-! ## The flat category extractions (lines 571-611) -/

/-- Headings (lines 571-576): every `h1`-`h6` is recorded. -/
def headingsOut (root : HNode) : List (NPath × HNode) :=
  findAll ["h1", "h2", "h3", "h4", "h5", "h6"] root

/-- Code elements (lines 579-587): kept when the stripped text is nonempty
and longer than 2 characters. -/
def codeOut (root : HNode) : List (NPath × HNode) :=
  (findAll ["code", "pre", "kbd", "samp", "var"] root).filter
    (fun pn => decide (stext pn.2 ≠ "" ∧ 2 < (stext pn.2).length))

/-- The rows of a table (lines 596-599): one entry per `tr` with a
nonempty list of `td`/`th` cell texts. -/
def tableRows (n : HNode) : List (List String) :=
  (findAll ["tr"] n).filterMap (fun tr =>
    let cells := (findAll ["td", "th"] tr.2).map (fun c => stext c.2)
    if cells = [] then none else some cells)

/-- Tables (lines 590-601): kept when some row was collected. -/
def tablesOut (root : HNode) : List (NPath × HNode) :=
  (findAll ["table"] root).filter (fun pn => decide (tableRows pn.2 ≠ []))

/-- Lists (lines 604-611): kept when the stripped text is nonempty and
longer than 10 characters. -/
def listsOut (root : HNode) : List (NPath × HNode) :=
  (findAll ["ul", "ol", "dl"] root).filter
    (fun pn => decide (stext pn.2 ≠ "" ∧ 10 < (stext pn.2).length))

/-- The nine extraction categories of a scraped page. -/
inductive Cat where
  | codeB | table | heading | listC | sectionC | divC | paraC | bqC | spanC
deriving DecidableEq

/-- The tag set each category's `find_all` call selects. -/
def tagsOf : Cat → List String
  | .codeB => ["code", "pre", "kbd", "samp", "var"]
  | .table => ["table"]
  | .heading => ["h1", "h2", "h3", "h4", "h5", "h6"]
  | .listC => ["ul", "ol", "dl"]
  | .sectionC => ["section", "article"]
  | .divC => ["div"]
  | .paraC => ["p"]
  | .bqC => ["blockquote"]
  | .spanC => ["span"]

/-- The records a page emits under each category. -/
def emittedIn : Cat → HNode → List (NPath × HNode)
  | .codeB, root => codeOut root
  | .table, root => tablesOut root
  | .heading, root => headingsOut root
  | .listC, root => listsOut root
  | .sectionC, root => (secPass root).1
  | .divC, root => (divPass root).1
  | .paraC, root => (paraPass root).1
  | .bqC, root => (bqPass root).1
  | .spanC, root => (spanPass root).1

/-! ## Budgeted digest assembly (`_filter_page_content_for_ai`, lines 802-970) -/

/-- One code-block record of `page_data['code_blocks']`. -/
structure CodeItem where
  text : String
  tag : String
deriving DecidableEq

/-- One heading record of `page_data['headings']`. -/
structure HeadItem where
  level : Nat
  text : String
deriving DecidableEq

/-- A record carrying only a text field (tables, lists, paragraphs, divs,
spans, blockquotes, sections). -/
structure TextItem where
  text : String
deriving DecidableEq

/-- The per-page structure handed to `_filter_page_content_for_ai`. -/
structure PageData where
  title : String
  code_blocks : List CodeItem
  tables : List TextItem
  headings : List HeadItem
  lists : List TextItem
  paragraphs : List TextItem
  divs : List TextItem
  spans : List TextItem
  blockquotes : List TextItem
  sections : List TextItem

/-- The configured digest ceiling (`max_size = 20000`, line 814). -/
def maxSize : Nat := 20000

/-- Titles containing any of these skip the page entirely (line 807). -/
def skipKeywords : List String :=
  ["privacy", "terms", "about", "contact", "careers", "blog", "showcase"]

/-- Line 808: `any(keyword in title.lower() for keyword in skip_keywords)`. -/
def skipTitle (title : String) : Bool :=
  skipKeywords.any (fun k => strContains (lowerStr title) k)

/-- The code-block fragment text (line 830): three backticks, tag,
newline, the full code text, newline, three backticks, two newlines. -/
def mkCodeAdd (c : CodeItem) : String :=
  "```" ++ c.tag ++ "\n" ++ c.text ++ "\n```\n\n"

/-- Code fragments (lines 816-832): every code block whose stripped text is
nonempty contributes its full text; there is no size condition. -/
def codeAdds (page : PageData) : List String :=
  page.code_blocks.filterMap (fun c =>
    if stripStr c.text ≠ "" then some (mkCodeAdd c) else none)

/-- Table fragments (lines 840-844): the raw (unstripped) table text when
its stripped form is nonempty. -/
def tableAdds (page : PageData) : List String :=
  page.tables.filterMap (fun t =>
    if stripStr t.text ≠ "" then some ("```\n" ++ t.text ++ "\n```\n\n") else none)

/-- Heading fragments (lines 856-860): `'#' * level ++ ' ' ++ text ++ '\n'`. -/
def headingAdds (page : PageData) : List String :=
  page.headings.filterMap (fun h =>
    let tx := stripStr h.text
    if tx ≠ "" then some (String.mk (List.replicate h.level '#') ++ " " ++ tx ++ "\n")
    else none)

/-- List fragments (lines 872-877): stripped text, only when under 2000 chars. -/
def listAdds (page : PageData) : List String :=
  page.lists.filterMap (fun l =>
    let tx := stripStr l.text
    if tx ≠ "" ∧ tx.length < 2000 then some ("```\n" ++ tx ++ "\n```\n\n") else none)

/-- Paragraph fragments (lines 890-894): stripped text under 800 chars. -/
def paraAdds (page : PageData) : List String :=
  page.paragraphs.filterMap (fun p =>
    let tx := stripStr p.text
    if tx ≠ "" ∧ tx.length < 800 then some (tx ++ "\n\n") else none)

/-- Div fragments (lines 907-911): stripped text under 1000 chars. -/
def divAdds (page : PageData) : List String :=
  page.divs.filterMap (fun d =>
    let tx := stripStr d.text
    if tx ≠ "" ∧ tx.length < 1000 then some (tx ++ "\n\n") else none)

/-- Span fragments (lines 924-927): every nonempty stripped span text. -/
def spanAdds (page : PageData) : List String :=
  page.spans.filterMap (fun s =>
    let tx := stripStr s.text
    if tx ≠ "" then some (tx ++ "\n") else none)

/-- Blockquote fragments (lines 940-942): `"> " ++ text ++ "\n\n"`. -/
def bqAdds (page : PageData) : List String :=
  page.blockquotes.filterMap (fun b =>
    let tx := stripStr b.text
    if tx ≠ "" then some ("> " ++ tx ++ "\n\n") else none)

/-- Section fragments (lines 955-959): stripped text under 1500 chars. -/
def sectAdds (page : PageData) : List String :=
  page.sections.filterMap (fun s =>
    let tx := stripStr s.text
    if tx ≠ "" ∧ tx.length < 1500 then some (tx ++ "\n\n") else none)

/-- The budget-checked fragment loop shared by every category except code
blocks: a fragment is appended only when
`total_size + len(addition) < max_size` at its turn (e.g. lines 845-847);
otherwise it is dropped and the loop moves on. Returns the appended
fragments and the final cumulative size. -/
def chkFold (tot : Nat) : List String → List String × Nat
  | [] => ([], tot)
  | a :: rest =>
    if tot + a.length < maxSize then
      let r := chkFold (tot + a.length) rest
      (a :: r.1, r.2)
    else
      chkFold tot rest

/-- The cumulative sizes observed after each fragment of a budget-checked
category loop. -/
def chkTrace (tot : Nat) : List String → List Nat
  | [] => []
  | a :: rest =>
    if tot + a.length < maxSize then
      (tot + a.length) :: chkTrace (tot + a.length) rest
    else
      tot :: chkTrace tot rest

/-- The cumulative sizes observed after each fragment of the unchecked
code-block loop (`total_size += len(addition)` with no test, line 832). -/
def uncTrace (tot : Nat) : List String → List Nat
  | [] => []
  | a :: rest => (tot + a.length) :: uncTrace (tot + a.length) rest

/-- Assembler state: the digest text built so far, the `total_size`
counter, and the trace of counter values after each processed fragment. -/
structure Asm where
  content : String
  tot : Nat
  trace : List Nat

/-- Initial state: `filtered_content = f"# {title}\n\n"` and
`total_size = len(filtered_content)` (lines 812-813). -/
def asm0 (page : PageData) : Asm :=
  let c := "# " ++ page.title ++ "\n\n"
  ⟨c, c.length, []⟩

/-- The code-block category (lines 816-835): runs when `code_blocks` is
nonempty; every fragment is counted with no budget test; the section is
appended when longer than 20 characters. -/
def asm1 (page : PageData) : Asm :=
  let st := asm0 page
  if page.code_blocks = [] then st
  else
    let adds := codeAdds page
    let sec := "## Code Examples:\n" ++ strJoin adds
    ⟨(if 20 < sec.length then st.content ++ sec else st.content),
     st.tot + (adds.map String.length).sum,
     st.trace ++ uncTrace st.tot adds⟩

/-- A budget-checked category: runs when its source list is nonempty and
`total_size < max_size`; fragments pass through `chkFold`; the section is
appended when longer than 15 characters, followed by `trail`. -/
def catChecked (guard : Prop) [Decidable guard] (header : String) (adds : List String)
    (trail : String) (st : Asm) : Asm :=
  if guard ∧ st.tot < maxSize then
    let r := chkFold st.tot adds
    let sec := header ++ strJoin r.1
    ⟨(if 15 < sec.length then st.content ++ sec ++ trail else st.content),
     r.2,
     st.trace ++ chkTrace st.tot adds⟩
  else st

/-- After tables (lines 837-850). -/
def asm2 (page : PageData) : Asm :=
  catChecked (page.tables ≠ []) "## Tables:\n" (tableAdds page) "" (asm1 page)

/-- After headings (lines 852-866; note the trailing newline). -/
def asm3 (page : PageData) : Asm :=
  catChecked (page.headings ≠ []) "## Headings:\n" (headingAdds page) "\n" (asm2 page)

/-- After lists (lines 868-883). -/
def asm4 (page : PageData) : Asm :=
  catChecked (page.lists ≠ []) "## Lists:\n" (listAdds page) "" (asm3 page)

/-- After paragraphs (lines 885-900). -/
def asm5 (page : PageData) : Asm :=
  catChecked (page.paragraphs ≠ []) "## Paragraphs:\n" (paraAdds page) "" (asm4 page)

/-- After divs (lines 902-917). -/
def asm6 (page : PageData) : Asm :=
  catChecked (page.divs ≠ []) "## Divs:\n" (divAdds page) "" (asm5 page)

/-- After spans (lines 919-933; note the trailing newline). -/
def asm7 (page : PageData) : Asm :=
  catChecked (page.spans ≠ []) "## Spans:\n" (spanAdds page) "\n" (asm6 page)

/-- After blockquotes (lines 935-948). -/
def asm8 (page : PageData) : Asm :=
  catChecked (page.blockquotes ≠ []) "## Notes:\n" (bqAdds page) "" (asm7 page)

/-- After sections (lines 950-965): the final assembler state. -/
def asm9 (page : PageData) : Asm :=
  catChecked (page.sections ≠ []) "## Sections:\n" (sectAdds page) "" (asm8 page)

/-- The trailing size marker (line 968). -/
def sizeMarker (tot : Nat) : String :=
  "\n<!-- Content Size: " ++ toString tot ++ " characters -->\n"

/-- `_filter_page_content_for_ai` (lines 802-970): empty for skip-titled
pages; otherwise the assembled digest with its size marker when
`total_size > 100`, else the empty string. -/
def filterPageContent (page : PageData) : String :=
  if skipTitle page.title then ""
  else
    let st := asm9 page
    if 100 < st.tot then st.content ++ sizeMarker st.tot else ""

/-- The caller's skip test (lines 770-772 of `extract_endpoints_with_ai`):
`if not filtered_content.strip(): continue`. -/
def callerSkips (page : PageData) : Bool :=
  stripStr (filterPageContent page) = ""

/-! ## cURL helpers (`chat_app.py`, lines 268-278) -/

/-- The scan of `_extract_method`'s loop: the token following the first
`-X` that has a successor. -/
def findAfterX : List String → Option String
  | [] => none
  | [_] => none
  | x :: y :: rest => if x = "-X" then some y else findAfterX (y :: rest)

/-- `_extract_method` (lines 268-274): pick the token after `-X` when the
string contains `curl -X`; otherwise the default `'GET'`. -/
def extractMethod (curl : String) : String :=
  if strContains curl "curl -X" then
    match findAfterX (curl.splitOn " ") with
    | some m => m
    | none => "GET"
  else "GET"

/-- Matching of `https?://[^"]*"` directly after an opening quote: the
scheme, then everything up to the next quote, which must exist. -/
def urlAfterQuote (l : List Char) : Option (List Char) :=
  if takesPre "https://".data l then
    let r := l.drop 8
    match r.dropWhile (fun c => !(c = '"')) with
    | [] => none
    | _ :: _ => some ("https://".data ++ r.takeWhile (fun c => !(c = '"')))
  else if takesPre "http://".data l then
    let r := l.drop 7
    match r.dropWhile (fun c => !(c = '"')) with
    | [] => none
    | _ :: _ => some ("http://".data ++ r.takeWhile (fun c => !(c = '"')))
  else none

/-- `re.search(r'"(https?://[^"]*)"', curl)`: try each position left to
right for a quoted URL. -/
def searchUrl : List Char → Option (List Char)
  | [] => none
  | c :: rest =>
    if c = '"' then
      match urlAfterQuote rest with
      | some u => some u
      | none => searchUrl rest
    else searchUrl rest

/-- `_extract_url` (lines 276-278): the first quoted URL, else `'unknown'`. -/
def extractUrl (curl : String) : String :=
  match searchUrl curl.data with
  | some u => ⟨u⟩
  | none => "unknown"

/-! ## Basic lemmas about the string utilities -/

theorem data_append (a b : String) : (a ++ b).data = a.data ++ b.data := rfl

theorem len_append (a b : String) : (a ++ b).length = a.length + b.length := by
  show (a.data ++ b.data).length = a.data.length + b.data.length
  exact List.length_append a.data b.data

theorem dropWhile_eq_self_of {p : Char → Bool} {l : List Char}
    (h : ∀ c ∈ l, p c = false) : l.dropWhile p = l := by
  cases l with
  | nil => rfl
  | cons a t => simp [List.dropWhile_cons, h a (by simp)]

theorem stripStr_eq_self {s : String} (h : ∀ c ∈ s.data, isWS c = false) :
    stripStr s = s := by
  unfold stripStr
  rw [dropWhile_eq_self_of h, dropWhile_eq_self_of (fun c hc => h c (by simpa using hc)),
    List.reverse_reverse]

theorem stripStr_empty : stripStr "" = "" := rfl

theorem ne_empty_of_stripStr_ne {s : String} (h : stripStr s ≠ "") : s ≠ "" := by
  intro he
  exact h (by rw [he]; rfl)

theorem length_pos_of_ne_empty {s : String} (h : s ≠ "") : 1 ≤ s.length := by
  cases s with
  | mk l =>
    cases l with
    | nil => exact absurd rfl h
    | cons c t => simp [String.length]

/-- `n` copies of the character `c`, as a string. -/
def repChar (n : Nat) (c : Char) : String :=
  ⟨List.replicate n c⟩

theorem length_repChar (n : Nat) (c : Char) : (repChar n c).length = n := by
  simp [repChar, String.length]

theorem stripStr_repChar {c : Char} (h : isWS c = false) (n : Nat) :
    stripStr (repChar n c) = repChar n c := by
  refine stripStr_eq_self ?_
  intro x hx
  rcases List.eq_of_mem_replicate hx with rfl
  exact h

theorem strJoin_mem_sub {a : String} {l : List String} (h : a ∈ l) :
    ∃ p q, (strJoin l).data = p ++ a.data ++ q := by
  induction l with
  | nil => cases h
  | cons x xs ih =>
    rcases List.mem_cons.1 h with rfl | h'
    · exact ⟨[], (strJoin xs).data, by simp [strJoin, data_append]⟩
    · rcases ih h' with ⟨p, q, hpq⟩
      exact ⟨x.data ++ p, q, by simp [strJoin, data_append, hpq]⟩

theorem strJoin_len_ge {a : String} {l : List String} (h : a ∈ l) :
    a.length ≤ (strJoin l).length := by
  rcases strJoin_mem_sub h with ⟨p, q, hpq⟩
  show a.data.length ≤ (strJoin l).data.length
  rw [hpq]
  simp
  omega

/-! ## The budget trace and its monotonicity -/

/-- `StepsTo f tr t`: starting from counter value `f`, the successive
values are exactly `tr` (each at least its predecessor) and the final
value is `t`. -/
def StepsTo : Nat → List Nat → Nat → Prop
  | f, [], t => f = t
  | f, x :: xs, t => f ≤ x ∧ StepsTo x xs t

theorem stepsTo_nil {f t : Nat} : StepsTo f [] t ↔ f = t := Iff.rfl

theorem stepsTo_cons {f x t : Nat} {xs : List Nat} :
    StepsTo f (x :: xs) t ↔ f ≤ x ∧ StepsTo x xs t := Iff.rfl

theorem StepsTo.le {f t : Nat} : ∀ {tr : List Nat}, StepsTo f tr t → f ≤ t := by
  intro tr
  induction tr generalizing f with
  | nil => intro h; exact Nat.le_of_eq h
  | cons x xs ih => rintro ⟨h1, h2⟩; exact Nat.le_trans h1 (ih h2)

theorem StepsTo.append {f m t : Nat} {tr1 tr2 : List Nat}
    (h1 : StepsTo f tr1 m) (h2 : StepsTo m tr2 t) :
    StepsTo f (tr1 ++ tr2) t := by
  induction tr1 generalizing f with
  | nil => cases h1; simpa using h2
  | cons x xs ih => exact ⟨h1.1, ih h1.2⟩

theorem StepsTo.mem_le {f t : Nat} {tr : List Nat} (h : StepsTo f tr t) :
    ∀ v ∈ tr, f ≤ v ∧ v ≤ t := by
  induction tr generalizing f with
  | nil => intro v hv; cases hv
  | cons x xs ih =>
    intro v hv
    rcases List.mem_cons.1 hv with rfl | hv'
    · exact ⟨h.1, StepsTo.le h.2⟩
    · rcases ih h.2 v hv' with ⟨hl, hr⟩
      exact ⟨Nat.le_trans h.1 hl, hr⟩

theorem chkFold_steps (adds : List String) :
    ∀ tot, StepsTo tot (chkTrace tot adds) (chkFold tot adds).2 := by
  induction adds with
  | nil => intro tot; rfl
  | cons a rest ih =>
    intro tot
    by_cases h : tot + a.length < maxSize
    · simpa [chkFold, chkTrace, h, stepsTo_cons] using
        And.intro (Nat.le_add_right tot a.length) (ih (tot + a.length))
    · simpa [chkFold, chkTrace, h, stepsTo_cons] using And.intro (Nat.le_refl tot) (ih tot)

theorem chkFold_lt (adds : List String) :
    ∀ tot, tot < maxSize →
      (chkFold tot adds).2 < maxSize ∧ ∀ v ∈ chkTrace tot adds, v < maxSize := by
  induction adds with
  | nil => intro tot h; simpa [chkFold, chkTrace] using h
  | cons a rest ih =>
    intro tot h
    by_cases hfit : tot + a.length < maxSize
    · rcases ih (tot + a.length) hfit with ⟨h1, h2⟩
      refine ⟨by simpa [chkFold, hfit] using h1, ?_⟩
      intro v hv
      rw [chkTrace, if_pos hfit] at hv
      rcases List.mem_cons.1 hv with rfl | hv'
      · exact hfit
      · exact h2 v hv'
    · rcases ih tot h with ⟨h1, h2⟩
      refine ⟨by simpa [chkFold, hfit] using h1, ?_⟩
      intro v hv
      rw [chkTrace, if_neg hfit] at hv
      rcases List.mem_cons.1 hv with rfl | hv'
      · exact h
      · exact h2 v hv'

theorem chkFold_sublist (adds : List String) :
    ∀ tot, (chkFold tot adds).1.Sublist adds := by
  induction adds with
  | nil => intro tot; simp [chkFold]
  | cons a rest ih =>
    intro tot
    by_cases h : tot + a.length < maxSize
    · simpa [chkFold, h] using List.Sublist.cons₂ a (ih (tot + a.length))
    · simpa [chkFold, h] using List.Sublist.cons a (ih tot)

theorem chkFold_sum (adds : List String) :
    ∀ tot, (chkFold tot adds).2 = tot + ((chkFold tot adds).1.map String.length).sum := by
  induction adds with
  | nil => intro tot; simp [chkFold]
  | cons a rest ih =>
    intro tot
    by_cases h : tot + a.length < maxSize
    · simp [chkFold, h, ih (tot + a.length), Nat.add_assoc]
    · simp [chkFold, h, ih tot]

theorem chkFold_drop {tot : Nat} {a : String} (rest : List String)
    (h : ¬ tot + a.length < maxSize) :
    chkFold tot (a :: rest) = chkFold tot rest := by
  simp [chkFold, h]

theorem uncTrace_steps (adds : List String) :
    ∀ tot, StepsTo tot (uncTrace tot adds) (tot + (adds.map String.length).sum) := by
  induction adds with
  | nil => intro tot; simp [uncTrace, stepsTo_nil]
  | cons a rest ih =>
    intro tot
    refine ⟨Nat.le_add_right tot a.length, ?_⟩
    simpa [Nat.add_assoc] using ih (tot + a.length)

/-! ## Assembler-level lemmas -/

theorem asm0_trace (page : PageData) : (asm0 page).trace = [] := rfl

theorem asm1_steps (page : PageData) :
    StepsTo (asm0 page).tot (asm1 page).trace (asm1 page).tot := by
  unfold asm1
  by_cases h : page.code_blocks = []
  · simp [h, asm0_trace, stepsTo_nil]
  · simpa [h, asm0_trace] using uncTrace_steps (codeAdds page) (asm0 page).tot

theorem catChecked_steps {f : Nat} {st : Asm} (g : Prop) [Decidable g]
    (header : String) (adds : List String) (trail : String)
    (h : StepsTo f st.trace st.tot) :
    StepsTo f (catChecked g header adds trail st).trace
      (catChecked g header adds trail st).tot := by
  unfold catChecked
  by_cases hg : g ∧ st.tot < maxSize
  · simpa [hg] using h.append (chkFold_steps adds st.tot)
  · simpa [hg] using h

theorem catChecked_pos {g : Prop} [Decidable g] {st : Asm}
    (header : String) (adds : List String) (trail : String)
    (hg : g ∧ st.tot < maxSize) :
    catChecked g header adds trail st =
      ⟨(if 15 < (header ++ strJoin (chkFold st.tot adds).1).length
          then st.content ++ (header ++ strJoin (chkFold st.tot adds).1) ++ trail
          else st.content),
       (chkFold st.tot adds).2,
       st.trace ++ chkTrace st.tot adds⟩ := by
  rw [catChecked, if_pos hg]

theorem catChecked_neg {g : Prop} [Decidable g] {st : Asm}
    (header : String) (adds : List String) (trail : String)
    (hg : ¬ (g ∧ st.tot < maxSize)) :
    catChecked g header adds trail st = st := by
  rw [catChecked, if_neg hg]

theorem catChecked_keeps_lt {st : Asm} (g : Prop) [Decidable g]
    (header : String) (adds : List String) (trail : String)
    (h1 : st.tot < maxSize) (h2 : ∀ v ∈ st.trace, v < maxSize) :
    (catChecked g header adds trail st).tot < maxSize ∧
      ∀ v ∈ (catChecked g header adds trail st).trace, v < maxSize := by
  by_cases hg : g ∧ st.tot < maxSize
  · rw [catChecked_pos header adds trail hg]
    rcases chkFold_lt adds st.tot h1 with ⟨hf, htr⟩
    refine ⟨hf, ?_⟩
    intro v hv
    rcases List.mem_append.1 hv with hv | hv
    · exact h2 v hv
    · exact htr v hv
  · rw [catChecked_neg header adds trail hg]
    exact ⟨h1, h2⟩

theorem catChecked_content (g : Prop) [Decidable g]
    (header : String) (adds : List String) (trail : String) (st : Asm) :
    ∃ r, (catChecked g header adds trail st).content = st.content ++ r := by
  by_cases hg : g ∧ st.tot < maxSize
  · rw [catChecked_pos header adds trail hg]
    dsimp only
    split
    · exact ⟨_, by rw [String.append_assoc]⟩
    · exact ⟨"", by simp⟩
  · rw [catChecked_neg header adds trail hg]
    exact ⟨"", by simp⟩

theorem asm9_steps (page : PageData) :
    StepsTo (asm0 page).tot (asm9 page).trace (asm9 page).tot := by
  have h1 := asm1_steps page
  have h2 : StepsTo (asm0 page).tot (asm2 page).trace (asm2 page).tot := by
    rw [asm2]; exact catChecked_steps _ _ _ _ h1
  have h3 : StepsTo (asm0 page).tot (asm3 page).trace (asm3 page).tot := by
    rw [asm3]; exact catChecked_steps _ _ _ _ h2
  have h4 : StepsTo (asm0 page).tot (asm4 page).trace (asm4 page).tot := by
    rw [asm4]; exact catChecked_steps _ _ _ _ h3
  have h5 : StepsTo (asm0 page).tot (asm5 page).trace (asm5 page).tot := by
    rw [asm5]; exact catChecked_steps _ _ _ _ h4
  have h6 : StepsTo (asm0 page).tot (asm6 page).trace (asm6 page).tot := by
    rw [asm6]; exact catChecked_steps _ _ _ _ h5
  have h7 : StepsTo (asm0 page).tot (asm7 page).trace (asm7 page).tot := by
    rw [asm7]; exact catChecked_steps _ _ _ _ h6
  have h8 : StepsTo (asm0 page).tot (asm8 page).trace (asm8 page).tot := by
    rw [asm8]; exact catChecked_steps _ _ _ _ h7
  rw [asm9]; exact catChecked_steps _ _ _ _ h8

theorem asm9_lt_of_asm1_lt (page : PageData) (h : (asm1 page).tot < maxSize) :
    (asm9 page).tot < maxSize ∧ ∀ v ∈ (asm9 page).trace, v < maxSize := by
  have h1tr : ∀ v ∈ (asm1 page).trace, v < maxSize := by
    intro v hv
    have := (asm1_steps page).mem_le v hv
    exact Nat.lt_of_le_of_lt this.2 h
  have h2 : (asm2 page).tot < maxSize ∧ ∀ v ∈ (asm2 page).trace, v < maxSize := by
    rw [asm2]; exact catChecked_keeps_lt _ _ _ _ h h1tr
  have h3 : (asm3 page).tot < maxSize ∧ ∀ v ∈ (asm3 page).trace, v < maxSize := by
    rw [asm3]; exact catChecked_keeps_lt _ _ _ _ h2.1 h2.2
  have h4 : (asm4 page).tot < maxSize ∧ ∀ v ∈ (asm4 page).trace, v < maxSize := by
    rw [asm4]; exact catChecked_keeps_lt _ _ _ _ h3.1 h3.2
  have h5 : (asm5 page).tot < maxSize ∧ ∀ v ∈ (asm5 page).trace, v < maxSize := by
    rw [asm5]; exact catChecked_keeps_lt _ _ _ _ h4.1 h4.2
  have h6 : (asm6 page).tot < maxSize ∧ ∀ v ∈ (asm6 page).trace, v < maxSize := by
    rw [asm6]; exact catChecked_keeps_lt _ _ _ _ h5.1 h5.2
  have h7 : (asm7 page).tot < maxSize ∧ ∀ v ∈ (asm7 page).trace, v < maxSize := by
    rw [asm7]; exact catChecked_keeps_lt _ _ _ _ h6.1 h6.2
  have h8 : (asm8 page).tot < maxSize ∧ ∀ v ∈ (asm8 page).trace, v < maxSize := by
    rw [asm8]; exact catChecked_keeps_lt _ _ _ _ h7.1 h7.2
  rw [asm9]; exact catChecked_keeps_lt _ _ _ _ h8.1 h8.2

theorem repChar_ne_empty {n : Nat} (h : n ≠ 0) (c : Char) : repChar n c ≠ "" := by
  intro he
  have hl := length_repChar n c
  rw [he] at hl
  exact h (by simpa [String.length] using hl.symm)

/-! ## Claim C1: budget monotonicity and the ceiling -/

/-- C1 (amended): as fragments are appended the cumulative digest size is
non-decreasing; and provided the unchecked code-block phase itself stays
under the 20000-character ceiling, no later cumulative size value exceeds
the ceiling. (As stated, C1 is false: code blocks are appended with no
budget test, see `c1_counterexample`.) -/
theorem c1_budget_monotone_bounded (page : PageData) :
    StepsTo (asm0 page).tot (asm9 page).trace (asm9 page).tot ∧
    ((asm1 page).tot < maxSize →
      (asm9 page).tot < maxSize ∧ ∀ v ∈ (asm9 page).trace, v < maxSize) :=
  ⟨asm9_steps page, fun h => asm9_lt_of_asm1_lt page h⟩

/-- Concrete witness page for C1: a single small code block. -/
def pageC1w : PageData :=
  ⟨"Docs", [⟨"print(1)", "code"⟩], [], [], [], [], [], [], [], []⟩

theorem c1_witness :
    (asm1 pageC1w).tot < maxSize ∧ (asm9 pageC1w).tot < maxSize :=
  ⟨by decide, ((c1_budget_monotone_bounded pageC1w).2 (by decide)).1⟩

/-- A page whose only code block is 20000 characters long. -/
def pageC1 : PageData :=
  ⟨"API Reference", [⟨repChar 20000 'a', "code"⟩], [], [], [], [], [], [], [], []⟩

/-- C1 counterexample: the cumulative digest size exceeds the configured
20000-character ceiling, because code blocks are never budget-checked
(lines 828-832 increment `total_size` unconditionally). -/
theorem c1_counterexample : maxSize < (asm9 pageC1).tot := by
  have hstrip : stripStr (repChar 20000 'a') = repChar 20000 'a' :=
    stripStr_repChar (by decide) 20000
  have hne : repChar 20000 'a' ≠ "" := repChar_ne_empty (by decide) 'a'
  have hadds : codeAdds pageC1 = [mkCodeAdd ⟨repChar 20000 'a', "code"⟩] := by
    simp [codeAdds, pageC1, hstrip, hne]
  have hlen : (mkCodeAdd (⟨repChar 20000 'a', "code"⟩ : CodeItem)).length = 20014 := by
    simp [mkCodeAdd, len_append, length_repChar]
    decide
  have h9 : (asm9 pageC1).tot = (asm1 pageC1).tot := by
    simp [asm9, asm8, asm7, asm6, asm5, asm4, asm3, asm2, catChecked, pageC1]
  have hcb : pageC1.code_blocks = [⟨repChar 20000 'a', "code"⟩] := rfl
  have h1 : (asm1 pageC1).tot =
      (asm0 pageC1).tot + (mkCodeAdd (⟨repChar 20000 'a', "code"⟩ : CodeItem)).length := by
    simp [asm1, hcb, hadds]
  have h0 : (asm0 pageC1).tot = 17 := by decide
  rw [h9, h1, h0, hlen]
  decide

/-! ## Claim C10: skip-keyword titles empty the digest -/

/-- C10 (confirmed): whenever the lowered page title contains one of the
skip keywords, `_filter_page_content_for_ai` returns the empty string
(lines 806-809), regardless of the page's content. -/
theorem c10_skip_title (page : PageData)
    (h : ∃ kw ∈ skipKeywords, strHasSub kw (lowerStr page.title)) :
    filterPageContent page = "" := by
  rcases h with ⟨kw, hkw, hsub⟩
  have hskip : skipTitle page.title = true := by
    unfold skipTitle
    rw [List.any_eq_true]
    exact ⟨kw, hkw, (strContains_iff _ _).2 hsub⟩
  simp [filterPageContent, hskip]

/-- A page whose title matches `about` but which carries a code block and
a table that would otherwise be extracted. -/
def pageC10w : PageData :=
  ⟨"About Us", [⟨"curl -X GET https://api.example.com/v1/users", "pre"⟩],
   [⟨"name | type | required"⟩], [], [], [], [], [], [], []⟩

theorem c10_witness : filterPageContent pageC10w = "" :=
  c10_skip_title pageC10w
    ⟨"about", by decide, (strContains_iff _ _).1 (by decide)⟩

/-! ## Claim C7: the minimum informativeness threshold -/

/-- C7 (amended): for non-skipped pages, a digest whose final
`total_size` is at most 100 is returned empty and the caller skips the
page; a digest strictly above 100 is handed on with the trailing size
marker. (As stated, C7 is false at exactly 100: the code requires
`total_size > 100`, line 970, so a digest of exactly the threshold size
is dropped; see `c7_counterexample`.) -/
theorem c7_threshold (page : PageData) (h : skipTitle page.title = false) :
    ((asm9 page).tot ≤ 100 →
      filterPageContent page = "" ∧ callerSkips page = true) ∧
    (100 < (asm9 page).tot →
      filterPageContent page = (asm9 page).content ++ sizeMarker (asm9 page).tot) := by
  constructor
  · intro hle
    have hnot : ¬ 100 < (asm9 page).tot := by omega
    constructor
    · simp [filterPageContent, h, hnot]
    · simp [callerSkips, filterPageContent, h, hnot, stripStr_empty]
  · intro hgt
    simp [filterPageContent, h, hgt]

/-- An informative-enough witness page: one 120-character paragraph. -/
def pageC7w : PageData :=
  ⟨"Users API", [], [], [], [], [⟨repChar 120 'x'⟩], [], [], [], []⟩

theorem c7_witness :
    filterPageContent pageC7w = (asm9 pageC7w).content ++ sizeMarker (asm9 pageC7w).tot :=
  (c7_threshold pageC7w (by decide)).2 (by decide)

/-- A page assembling to `total_size` exactly 100: header of 5 characters
plus one 93-character paragraph fragment (93 + 2 newlines). -/
def pageC7 : PageData :=
  ⟨"T", [], [], [], [], [⟨repChar 93 'a'⟩], [], [], [], []⟩

/-- C7 counterexample: a digest of exactly the 100-character threshold is
returned empty, though the claim says digests at the threshold are handed
on. -/
theorem c7_counterexample :
    (asm9 pageC7).tot = 100 ∧ filterPageContent pageC7 = "" := by
  constructor
  · decide
  · decide

/-! ## Claim C4: dropping fragments that would exceed the ceiling -/

/-- C4 (amended): in every budget-checked category loop, the appended
fragments form a sublist of the candidate fragments (no fragment is
reordered or truncated), the cumulative size grows by exactly the whole
appended fragments, and a fragment that would push the size to the
ceiling or beyond is dropped silently while the remaining fragments are
still processed — later fragments are not discarded wholesale. (As
stated, C4 is false: a fragment after a dropped one is still appended
when it fits, see `c4_counterexample`.) -/
theorem c4_fragment_drop (tot : Nat) (adds : List String) (a : String)
    (rest : List String) (h : maxSize ≤ tot + a.length) :
    (chkFold tot adds).1.Sublist adds ∧
    (chkFold tot adds).2 = tot + ((chkFold tot adds).1.map String.length).sum ∧
    chkFold tot (a :: rest) = chkFold tot rest :=
  ⟨chkFold_sublist adds tot, chkFold_sum adds tot,
   chkFold_drop rest (by omega)⟩

theorem c4_witness :
    (chkFold 19990 ["xy"]).1.Sublist ["xy"] ∧
    (chkFold 19990 ["xy"]).2 = 19990 + ((chkFold 19990 ["xy"]).1.map String.length).sum ∧
    chkFold 19990 ("aaaaaaaaaaaaaaaaaaaa" :: ["xy"]) = chkFold 19990 ["xy"] :=
  c4_fragment_drop 19990 ["xy"] "aaaaaaaaaaaaaaaaaaaa" ["xy"] (by decide)

/-! ## Claim C5: code blocks are always fully included -/

theorem asm9_content_ext (page : PageData) :
    ∃ r, (asm9 page).content = (asm1 page).content ++ r := by
  obtain ⟨r2, h2⟩ := catChecked_content (page.tables ≠ []) "## Tables:\n" (tableAdds page) "" (asm1 page)
  obtain ⟨r3, h3⟩ := catChecked_content (page.headings ≠ []) "## Headings:\n" (headingAdds page) "\n" (asm2 page)
  obtain ⟨r4, h4⟩ := catChecked_content (page.lists ≠ []) "## Lists:\n" (listAdds page) "" (asm3 page)
  obtain ⟨r5, h5⟩ := catChecked_content (page.paragraphs ≠ []) "## Paragraphs:\n" (paraAdds page) "" (asm4 page)
  obtain ⟨r6, h6⟩ := catChecked_content (page.divs ≠ []) "## Divs:\n" (divAdds page) "" (asm5 page)
  obtain ⟨r7, h7⟩ := catChecked_content (page.spans ≠ []) "## Spans:\n" (spanAdds page) "\n" (asm6 page)
  obtain ⟨r8, h8⟩ := catChecked_content (page.blockquotes ≠ []) "## Notes:\n" (bqAdds page) "" (asm7 page)
  obtain ⟨r9, h9⟩ := catChecked_content (page.sections ≠ []) "## Sections:\n" (sectAdds page) "" (asm8 page)
  refine ⟨r2 ++ r3 ++ r4 ++ r5 ++ r6 ++ r7 ++ r8 ++ r9, ?_⟩
  rw [asm9, h9, asm8, h8, asm7, h7, asm6, h6, asm5, h5, asm4, h4, asm3, h3, asm2, h2]
  simp [String.append_assoc]

theorem codeAdds_mem {page : PageData} {cb : CodeItem}
    (hmem : cb ∈ page.code_blocks) (hne : stripStr cb.text ≠ "") :
    mkCodeAdd cb ∈ codeAdds page :=
  List.mem_filterMap.2 ⟨cb, hmem, by simp [hne]⟩

theorem asm1_content_of_mem {page : PageData} {cb : CodeItem}
    (hmem : cb ∈ page.code_blocks) (hne : stripStr cb.text ≠ "") :
    (asm1 page).content =
      (asm0 page).content ++ ("## Code Examples:\n" ++ strJoin (codeAdds page)) := by
  have hcb : ¬ page.code_blocks = [] := by
    intro he; rw [he] at hmem; cases hmem
  have htext : 1 ≤ cb.text.length :=
    length_pos_of_ne_empty (ne_empty_of_stripStr_ne hne)
  have hone : 11 ≤ (mkCodeAdd cb).length := by
    simp only [mkCodeAdd, len_append]
    have h3 : ("```" : String).length = 3 := by decide
    have h1 : ("\n" : String).length = 1 := by decide
    have h6 : ("\n```\n\n" : String).length = 6 := by decide
    omega
  have hjoin : 11 ≤ (strJoin (codeAdds page)).length :=
    Nat.le_trans hone (strJoin_len_ge (codeAdds_mem hmem hne))
  have hsec : 20 < ("## Code Examples:\n" ++ strJoin (codeAdds page)).length := by
    rw [len_append]
    have : ("## Code Examples:\n" : String).length = 18 := by decide
    omega
  rw [asm1, if_neg hcb]
  dsimp only
  rw [if_pos hsec]

/-- C5 (confirmed): every code block with nonempty stripped text appears
in full inside the digest of a non-skipped, informative-enough page: code
fragments are collected with no size condition (lines 828-831), before
every other category, and are never truncated. -/
theorem c5_code_included (page : PageData) (cb : CodeItem)
    (hmem : cb ∈ page.code_blocks) (hne : stripStr cb.text ≠ "")
    (hskip : skipTitle page.title = false) (hth : 100 < (asm9 page).tot) :
    strHasSub cb.text (filterPageContent page) ∧
    ∃ rest, filterPageContent page =
      ("# " ++ page.title ++ "\n\n") ++ ("## Code Examples:\n" ++ strJoin (codeAdds page)) ++ rest := by
  obtain ⟨r, hr⟩ := asm9_content_ext page
  have hfull : filterPageContent page = (asm9 page).content ++ sizeMarker (asm9 page).tot := by
    simp [filterPageContent, hskip, hth]
  have h1 := asm1_content_of_mem hmem hne
  have h0 : (asm0 page).content = "# " ++ page.title ++ "\n\n" := rfl
  constructor
  · obtain ⟨p, q, hpq⟩ := strJoin_mem_sub (codeAdds_mem hmem hne)
    refine ⟨("# " ++ page.title ++ "\n\n").data ++ "## Code Examples:\n".data ++ p
        ++ "```".data ++ cb.tag.data ++ "\n".data,
      "\n```\n\n".data ++ q ++ r.data ++ (sizeMarker (asm9 page).tot).data, ?_⟩
    have hmk : (mkCodeAdd cb).data =
        "```".data ++ cb.tag.data ++ "\n".data ++ cb.text.data ++ "\n```\n\n".data := by
      simp [mkCodeAdd, data_append]
    rw [hfull, hr, h1, h0]
    simp only [data_append, hpq, hmk, List.append_assoc]
  · exact ⟨r ++ sizeMarker (asm9 page).tot, by
      rw [hfull, hr, h1, h0]; simp [String.append_assoc]⟩

/-- Witness page for C5: five 100-character code blocks (500 characters
of code in total) under the 20000-character ceiling. -/
def pageC5w : PageData :=
  ⟨"Endpoints",
   [⟨repChar 100 'a', "code"⟩, ⟨repChar 100 'b', "pre"⟩, ⟨repChar 100 'c', "code"⟩,
    ⟨repChar 100 'd', "kbd"⟩, ⟨repChar 100 'e', "code"⟩],
   [], [], [], [], [], [], [], []⟩

theorem c5_witness :
    strHasSub (repChar 100 'a') (filterPageContent pageC5w) ∧
    strHasSub (repChar 100 'c') (filterPageContent pageC5w) ∧
    strHasSub (repChar 100 'e') (filterPageContent pageC5w) := by
  refine ⟨(c5_code_included pageC5w ⟨repChar 100 'a', "code"⟩ (by decide) (by decide) (by decide) (by decide)).1,
    (c5_code_included pageC5w ⟨repChar 100 'c', "code"⟩ (by decide) (by decide) (by decide) (by decide)).1,
    (c5_code_included pageC5w ⟨repChar 100 'e', "code"⟩ (by decide) (by decide) (by decide) (by decide)).1⟩

/-! ## Claim C8: the command helpers default instead of rejecting -/

/-- C8 (amended): `_extract_method` and `_extract_url` never return a
rejection reason; a command without `curl -X` silently receives the
default method `GET` (line 274) and a command without a quoted URL
silently receives the placeholder `unknown` (line 278). (As stated, C8 is
false: no distinct rejection reasons exist, see `c8_counterexample`.) -/
theorem c8_default_values (s t : String)
    (hm : strContains s "curl -X" = false) (hu : searchUrl t.data = none) :
    extractMethod s = "GET" ∧ extractUrl t = "unknown" := by
  constructor
  · simp [extractMethod, hm]
  · simp [extractUrl, hu]

theorem c8_witness :
    extractMethod "curl https://api.example.com/v2/items" = "GET" ∧
    extractUrl "curl -X PATCH api.example.com" = "unknown" :=
  c8_default_values "curl https://api.example.com/v2/items" "curl -X PATCH api.example.com"
    (by decide) (by decide)

/-- C8 counterexample: a cURL command with no HTTP method is given the
default value `GET` rather than a distinct rejection reason, and a
command with no quoted URL is given the default value `unknown`. -/
theorem c8_counterexample :
    extractMethod "curl https://x.example.org/users" = "GET" ∧
    extractUrl "curl -X DELETE https://x.example.org/users/1" = "unknown" := by
  decide

/-! ## Lemmas about the hierarchical dedup pass -/

theorem runPass_cov_mono (check : Bool) (pred : HNode → Bool)
    (cover : NPath → HNode → List NPath) (items : List (NPath × HNode)) :
    ∀ cov q, q ∈ cov → q ∈ (runPass check pred cover items cov).2 := by
  induction items with
  | nil => intro cov q h; simpa [runPass] using h
  | cons pn rest ih =>
    intro cov q h
    obtain ⟨p, n⟩ := pn
    by_cases hc : check = true ∧ p ∈ cov
    · rw [runPass, if_pos hc]; exact ih cov q h
    · rw [runPass, if_neg hc]
      by_cases hp : pred n = true
      · rw [if_pos hp]
        exact ih (cov ++ cover p n) q (List.mem_append_left _ h)
      · rw [if_neg hp]; exact ih cov q h

theorem runPass_rec_sub (check : Bool) (pred : HNode → Bool)
    (cover : NPath → HNode → List NPath) (items : List (NPath × HNode)) :
    ∀ cov, (runPass check pred cover items cov).1.Sublist items := by
  induction items with
  | nil => intro cov; simp [runPass]
  | cons pn rest ih =>
    intro cov
    obtain ⟨p, n⟩ := pn
    by_cases hc : check = true ∧ p ∈ cov
    · rw [runPass, if_pos hc]; exact (ih cov).cons _
    · rw [runPass, if_neg hc]
      by_cases hp : pred n = true
      · rw [if_pos hp]; exact (ih (cov ++ cover p n)).cons₂ _
      · rw [if_neg hp]; exact (ih cov).cons _

theorem runPass_rec_pred (check : Bool) (pred : HNode → Bool)
    (cover : NPath → HNode → List NPath) (items : List (NPath × HNode)) :
    ∀ cov pn, pn ∈ (runPass check pred cover items cov).1 →
      pred pn.2 = true ∧ (check = true → pn.1 ∉ cov) := by
  induction items with
  | nil => intro cov pn h; simp [runPass] at h
  | cons qm rest ih =>
    intro cov pn h
    obtain ⟨q, m⟩ := qm
    by_cases hc : check = true ∧ q ∈ cov
    · rw [runPass, if_pos hc] at h; exact ih cov pn h
    · rw [runPass, if_neg hc] at h
      by_cases hp : pred m = true
      · rw [if_pos hp] at h
        rcases List.mem_cons.1 h with rfl | h'
        · refine ⟨hp, fun hch => ?_⟩
          intro hqc
          exact hc ⟨hch, hqc⟩
        · rcases ih _ pn h' with ⟨h1, h2⟩
          refine ⟨h1, fun hch => ?_⟩
          intro hqc
          exact h2 hch (List.mem_append_left _ hqc)
      · rw [if_neg hp] at h; exact ih cov pn h

theorem runPass_cover_in (check : Bool) (pred : HNode → Bool)
    (cover : NPath → HNode → List NPath) (items : List (NPath × HNode)) :
    ∀ cov pn, pn ∈ (runPass check pred cover items cov).1 →
      ∀ q ∈ cover pn.1 pn.2, q ∈ (runPass check pred cover items cov).2 := by
  induction items with
  | nil => intro cov pn h; simp [runPass] at h
  | cons qm rest ih =>
    intro cov pn h q hq
    obtain ⟨q0, m⟩ := qm
    by_cases hc : check = true ∧ q0 ∈ cov
    · rw [runPass, if_pos hc] at h ⊢; exact ih cov pn h q hq
    · rw [runPass, if_neg hc] at h ⊢
      by_cases hp : pred m = true
      · rw [if_pos hp] at h ⊢
        rcases List.mem_cons.1 h with rfl | h'
        · exact runPass_cov_mono check pred cover rest _ q
            (List.mem_append_right _ hq)
        · exact ih _ pn h' q hq
      · rw [if_neg hp] at h ⊢; exact ih cov pn h q hq

theorem runPass_skip (check : Bool) (pred : HNode → Bool)
    (cover : NPath → HNode → List NPath) (p : NPath) (n : HNode)
    (rest : List (NPath × HNode)) (cov : List NPath) (h : pred n = false) :
    runPass check pred cover ((p, n) :: rest) cov =
      runPass check pred cover rest cov := by
  by_cases hc : check = true ∧ p ∈ cov
  · rw [runPass, if_pos hc]
  · rw [runPass, if_neg hc, if_neg (by simp [h])]

theorem cov_sec_div (root : HNode) : ∀ q ∈ (secPass root).2, q ∈ (divPass root).2 := by
  intro q h
  exact runPass_cov_mono true predDiv coverDesc (findAll ["div"] root) (secPass root).2 q h

theorem cov_div_para (root : HNode) : ∀ q ∈ (divPass root).2, q ∈ (paraPass root).2 := by
  intro q h
  exact runPass_cov_mono true predPara coverDescSelf (findAll ["p"] root) (divPass root).2 q h

theorem cov_para_bq (root : HNode) : ∀ q ∈ (paraPass root).2, q ∈ (bqPass root).2 := by
  intro q h
  exact runPass_cov_mono true predBq coverDescSelf (findAll ["blockquote"] root) (paraPass root).2 q h

theorem cov_bq_span (root : HNode) : ∀ q ∈ (bqPass root).2, q ∈ (spanPass root).2 := by
  intro q h
  exact runPass_cov_mono true predSpan coverSelf (findAll ["span"] root) (bqPass root).2 q h

theorem divPass_avoids (root : HNode) :
    ∀ r ∈ (divPass root).1, r.1 ∉ (secPass root).2 := by
  intro r h
  exact (runPass_rec_pred true predDiv coverDesc (findAll ["div"] root) (secPass root).2 r h).2 rfl

theorem paraPass_avoids (root : HNode) :
    ∀ r ∈ (paraPass root).1, r.1 ∉ (divPass root).2 := by
  intro r h
  exact (runPass_rec_pred true predPara coverDescSelf (findAll ["p"] root) (divPass root).2 r h).2 rfl

theorem bqPass_avoids (root : HNode) :
    ∀ r ∈ (bqPass root).1, r.1 ∉ (paraPass root).2 := by
  intro r h
  exact (runPass_rec_pred true predBq coverDescSelf (findAll ["blockquote"] root) (paraPass root).2 r h).2 rfl

theorem spanPass_avoids (root : HNode) :
    ∀ r ∈ (spanPass root).1, r.1 ∉ (bqPass root).2 := by
  intro r h
  exact (runPass_rec_pred true predSpan coverSelf (findAll ["span"] root) (bqPass root).2 r h).2 rfl

/-! ## Claim C2: hierarchical deduplication -/

/-- Scenario B/C fixtures: a 200-character `div.endpoint` inside a
section of total text 1200 (`rootB`) or 3000 (`rootC`) characters. -/
def divB : HNode := .elem "div" ["endpoint"] [.text (repChar 200 'b')]

def secB : HNode := .elem "section" [] [.text (repChar 1000 'a'), divB]

def rootB : HNode := .elem "[document]" [] [secB]

def secC : HNode := .elem "section" [] [.text (repChar 2800 'a'), divB]

def rootC : HNode := .elem "[document]" [] [secC]

theorem append_empty_str (s : String) : s ++ "" = s := by
  cases s with
  | mk l =>
    show String.mk (l ++ []) = String.mk l
    rw [List.append_nil]

theorem stripStr_two_rep {c d : Char} (hc : isWS c = false) (hd : isWS d = false)
    (m n : Nat) : stripStr (repChar m c ++ repChar n d) = repChar m c ++ repChar n d := by
  refine stripStr_eq_self ?_
  intro x hx
  rw [data_append] at hx
  simp only [repChar] at hx
  rcases List.mem_append.1 hx with hx | hx
  · rcases List.eq_of_mem_replicate hx with rfl; exact hc
  · rcases List.eq_of_mem_replicate hx with rfl; exact hd

theorem getText_secC : getText secC = repChar 2800 'a' ++ repChar 200 'b' := by
  simp [secC, divB, getText, getTextL, append_empty_str]

theorem stext_secC : stext secC = repChar 2800 'a' ++ repChar 200 'b' := by
  rw [stext, getText_secC, stripStr_two_rep (by decide) (by decide)]

theorem predSection_secC : predSection secC = false := by
  have hlen : (stext secC).length = 3000 := by
    rw [stext_secC, len_append, length_repChar, length_repChar]
  unfold predSection
  simp only [decide_eq_false_iff_not]
  intro h'
  omega

theorem findAll_sec_rootC : findAll ["section", "article"] rootC = [([0], secC)] := by
  simp [findAll, allElems, rootC, secC, divB, elemsFrom, subOf, tagOf]

theorem secPass_rootC : secPass rootC = ([], []) := by
  rw [secPass, findAll_sec_rootC, runPass_skip _ _ _ _ _ _ _ predSection_secC]
  rfl

theorem findAll_div_rootC : findAll ["div"] rootC = [([0, 1], divB)] := by
  simp [findAll, allElems, rootC, secC, divB, elemsFrom, subOf, tagOf]

theorem predDiv_divB : predDiv divB = true := by decide

theorem scenarioC_div : (divPass rootC).1.map Prod.fst = [[0, 1]] := by
  rw [divPass, findAll_div_rootC, secPass_rootC]
  simp [runPass, predDiv_divB]

theorem scenarioC_sec : (secPass rootC).1.map Prod.fst = [] := by
  rw [secPass_rootC]
  rfl

/-- C2 (amended): for the section, div, paragraph and blockquote passes,
every extracted container's descendants are added to the covered set and
no later category pass emits a record at any of those descendant paths;
processing a node whose category condition fails (in particular an
oversized node) emits nothing and leaves the covered set unchanged, so
its smaller descendants stay individually eligible; scenarios B and C
behave as claimed. (As stated, C2 is false for the span pass, which
covers only the span itself and not its descendants, see
`c2_counterexample`.) -/
theorem c2_hierarchical_dedup :
    (∀ root : HNode, ∀ pn ∈ (secPass root).1,
        (∀ q ∈ coverDesc pn.1 pn.2, q ∈ (secPass root).2) ∧
        (∀ r ∈ (divPass root).1, r.1 ∉ coverDesc pn.1 pn.2) ∧
        (∀ r ∈ (paraPass root).1, r.1 ∉ coverDesc pn.1 pn.2) ∧
        (∀ r ∈ (bqPass root).1, r.1 ∉ coverDesc pn.1 pn.2) ∧
        (∀ r ∈ (spanPass root).1, r.1 ∉ coverDesc pn.1 pn.2)) ∧
    (∀ root : HNode, ∀ pn ∈ (divPass root).1,
        (∀ q ∈ coverDesc pn.1 pn.2, q ∈ (divPass root).2) ∧
        (∀ r ∈ (paraPass root).1, r.1 ∉ coverDesc pn.1 pn.2) ∧
        (∀ r ∈ (bqPass root).1, r.1 ∉ coverDesc pn.1 pn.2) ∧
        (∀ r ∈ (spanPass root).1, r.1 ∉ coverDesc pn.1 pn.2)) ∧
    (∀ root : HNode, ∀ pn ∈ (paraPass root).1,
        (∀ q ∈ coverDesc pn.1 pn.2, q ∈ (paraPass root).2) ∧
        (∀ r ∈ (bqPass root).1, r.1 ∉ coverDesc pn.1 pn.2) ∧
        (∀ r ∈ (spanPass root).1, r.1 ∉ coverDesc pn.1 pn.2)) ∧
    (∀ root : HNode, ∀ pn ∈ (bqPass root).1,
        (∀ q ∈ coverDesc pn.1 pn.2, q ∈ (bqPass root).2) ∧
        (∀ r ∈ (spanPass root).1, r.1 ∉ coverDesc pn.1 pn.2)) ∧
    (∀ (check : Bool) (pred : HNode → Bool) (cover : NPath → HNode → List NPath)
        (p : NPath) (n : HNode) (rest : List (NPath × HNode)) (cov : List NPath),
        pred n = false →
        runPass check pred cover ((p, n) :: rest) cov = runPass check pred cover rest cov) ∧
    (∀ n : HNode, 1500 ≤ (stext n).length → predSection n = false) ∧
    (∀ n : HNode, 1000 ≤ (stext n).length → predDiv n = false) ∧
    ((secPass rootB).1.map Prod.fst = [[0]] ∧ (divPass rootB).1.map Prod.fst = [] ∧
      [0, 1] ∈ (secPass rootB).2) ∧
    ((secPass rootC).1.map Prod.fst = [] ∧ (divPass rootC).1.map Prod.fst = [[0, 1]]) := by
  refine ⟨?_, ?_, ?_, ?_, ?_, ?_, ?_, ?_, ?_⟩
  · intro root pn hmem
    have hq : ∀ q ∈ coverDesc pn.1 pn.2, q ∈ (secPass root).2 := by
      intro q hqc
      exact runPass_cover_in false predSection coverDesc
        (findAll ["section", "article"] root) [] pn hmem q hqc
    refine ⟨hq, ?_, ?_, ?_, ?_⟩
    · intro r hr hrc
      exact divPass_avoids root r hr (hq r.1 hrc)
    · intro r hr hrc
      exact paraPass_avoids root r hr (cov_sec_div root r.1 (hq r.1 hrc))
    · intro r hr hrc
      exact bqPass_avoids root r hr (cov_div_para root r.1 (cov_sec_div root r.1 (hq r.1 hrc)))
    · intro r hr hrc
      exact spanPass_avoids root r hr
        (cov_para_bq root r.1 (cov_div_para root r.1 (cov_sec_div root r.1 (hq r.1 hrc))))
  · intro root pn hmem
    have hq : ∀ q ∈ coverDesc pn.1 pn.2, q ∈ (divPass root).2 := by
      intro q hqc
      exact runPass_cover_in true predDiv coverDesc
        (findAll ["div"] root) (secPass root).2 pn hmem q hqc
    refine ⟨hq, ?_, ?_, ?_⟩
    · intro r hr hrc
      exact paraPass_avoids root r hr (hq r.1 hrc)
    · intro r hr hrc
      exact bqPass_avoids root r hr (cov_div_para root r.1 (hq r.1 hrc))
    · intro r hr hrc
      exact spanPass_avoids root r hr (cov_para_bq root r.1 (cov_div_para root r.1 (hq r.1 hrc)))
  · intro root pn hmem
    have hq : ∀ q ∈ coverDesc pn.1 pn.2, q ∈ (paraPass root).2 := by
      intro q hqc
      exact runPass_cover_in true predPara coverDescSelf
        (findAll ["p"] root) (divPass root).2 pn hmem q (List.mem_append_left _ hqc)
    refine ⟨hq, ?_, ?_⟩
    · intro r hr hrc
      exact bqPass_avoids root r hr (hq r.1 hrc)
    · intro r hr hrc
      exact spanPass_avoids root r hr (cov_para_bq root r.1 (hq r.1 hrc))
  · intro root pn hmem
    have hq : ∀ q ∈ coverDesc pn.1 pn.2, q ∈ (bqPass root).2 := by
      intro q hqc
      exact runPass_cover_in true predBq coverDescSelf
        (findAll ["blockquote"] root) (paraPass root).2 pn hmem q (List.mem_append_left _ hqc)
    refine ⟨hq, ?_⟩
    intro r hr hrc
    exact spanPass_avoids root r hr (hq r.1 hrc)
  · intro check pred cover p n rest cov h
    exact runPass_skip check pred cover p n rest cov h
  · intro n h
    unfold predSection
    simp only [decide_eq_false_iff_not]
    intro h'
    omega
  · intro n h
    unfold predDiv
    have hd : decide (stext n ≠ "" ∧ 10 < (stext n).length ∧ (stext n).length < 1000) = false := by
      simp only [decide_eq_false_iff_not]
      intro h'
      omega
    rw [hd, Bool.and_false]
  · refine ⟨by decide, by decide, by decide⟩
  · exact ⟨scenarioC_sec, scenarioC_div⟩

/-- A span with a child element: the span is extracted but its descendant
is not covered. -/
def spanCE : HNode := .elem "span" [] [.elem "b" [] [.text "bearer"]]

def rootCE : HNode := .elem "[document]" [] [spanCE]

/-- C2 counterexample: the span pass extracts the span at path `[0]`, its
descendant `[0, 0]` is a descendant path, yet `[0, 0]` is not added to
the covered set — the code (line 720) adds only the span itself,
contradicting the claim's "every descendant node is added to the covered
set" for the span category. -/
theorem c2_counterexample :
    (spanPass rootCE).1.map Prod.fst = [[0]] ∧
    [0, 0] ∈ coverDesc [0] spanCE ∧
    [0, 0] ∉ (spanPass rootCE).2 := by
  decide

theorem c2_witness : [0, 1] ∈ (secPass rootB).2 := by
  have hsec : (secPass rootB).1 = [([0], secB)] := by rfl
  have hmem : ([0], secB) ∈ (secPass rootB).1 := by
    rw [hsec]
    exact List.mem_singleton.mpr rfl
  exact (c2_hierarchical_dedup.1 rootB ([0], secB) hmem).1 [0, 1] (by decide)

/-! ## Claim C3: hard size windows -/

/-- Scenario A fixture: one 50-character and one 2000-character paragraph. -/
def pA1 : HNode := .elem "p" [] [.text (repChar 50 'a')]

def pA2 : HNode := .elem "p" [] [.text (repChar 2000 'b')]

def rootA : HNode := .elem "[document]" [] [pA1, pA2]

theorem getText_pA2 : getText pA2 = repChar 2000 'b' := by
  simp [pA2, getText, getTextL, append_empty_str]

theorem stext_pA2 : stext pA2 = repChar 2000 'b' := by
  rw [stext, getText_pA2, stripStr_repChar (by decide)]

theorem predPara_pA2 : predPara pA2 = false := by
  have hlen : (stext pA2).length = 2000 := by rw [stext_pA2, length_repChar]
  unfold predPara
  simp only [decide_eq_false_iff_not]
  intro h'
  omega

theorem findAll_p_rootA : findAll ["p"] rootA = [([0], pA1), ([1], pA2)] := by
  simp [findAll, allElems, rootA, pA1, pA2, elemsFrom, subOf, tagOf]

theorem secPass_rootA : secPass rootA = ([], []) := by
  simp [secPass, findAll, allElems, rootA, pA1, pA2, elemsFrom, subOf, tagOf, runPass]

theorem divPass_rootA : divPass rootA = ([], []) := by
  rw [divPass, secPass_rootA]
  simp [findAll, allElems, rootA, pA1, pA2, elemsFrom, subOf, tagOf, runPass]

theorem predPara_pA1 : predPara pA1 = true := by decide

theorem paraPass_rootA : (paraPass rootA).1 = [([0], pA1)] := by
  rw [paraPass, findAll_p_rootA, divPass_rootA]
  simp [runPass, predPara_pA1, predPara_pA2, coverDescSelf, coverDesc, allElems,
    elemsFrom, subOf, pA1,
    show predPara (HNode.elem "p" [] [HNode.text (repChar 50 'a')]) = true from predPara_pA1,
    show predPara (HNode.elem "p" [] [HNode.text (repChar 2000 'b')]) = false from predPara_pA2]

/-- C3 (confirmed): every record emitted by the paragraph, div and
section passes has its full stripped text inside the category's size
window — any node whose text falls at or outside the window bounds is
rejected outright, with no truncated record; and scenario A yields
exactly one paragraph record, the 50-character one, in full. -/
theorem c3_size_windows :
    (∀ root : HNode, ∀ pn ∈ (paraPass root).1,
        10 < (stext pn.2).length ∧ (stext pn.2).length < 800) ∧
    (∀ root : HNode, ∀ pn ∈ (divPass root).1,
        10 < (stext pn.2).length ∧ (stext pn.2).length < 1000) ∧
    (∀ root : HNode, ∀ pn ∈ (secPass root).1,
        50 < (stext pn.2).length ∧ (stext pn.2).length < 1500) ∧
    (paraPass rootA).1.map (fun pn => (pn.1, stext pn.2)) = [([0], repChar 50 'a')] := by
  refine ⟨?_, ?_, ?_, ?_⟩
  · intro root pn hmem
    have hp := (runPass_rec_pred true predPara coverDescSelf
      (findAll ["p"] root) (divPass root).2 pn hmem).1
    rw [predPara, decide_eq_true_eq] at hp
    exact ⟨hp.2.1, hp.2.2⟩
  · intro root pn hmem
    have hp := (runPass_rec_pred true predDiv coverDesc
      (findAll ["div"] root) (secPass root).2 pn hmem).1
    rw [predDiv, Bool.and_eq_true, decide_eq_true_eq] at hp
    exact ⟨hp.2.2.1, hp.2.2.2⟩
  · intro root pn hmem
    have hp := (runPass_rec_pred false predSection coverDesc
      (findAll ["section", "article"] root) [] pn hmem).1
    rw [predSection, decide_eq_true_eq] at hp
    exact ⟨hp.2.1, hp.2.2⟩
  · rw [paraPass_rootA]
    simp
    decide

theorem c3_witness :
    10 < (stext pA1).length ∧ (stext pA1).length < 800 := by
  have hmem : ([0], pA1) ∈ (paraPass rootA).1 := by
    rw [paraPass_rootA]
    exact List.mem_singleton.mpr rfl
  exact c3_size_windows.1 rootA ([0], pA1) hmem

/-! ## Claim C9: standalone span extraction -/

/-- C9 (confirmed): a span is emitted only when it was not already
covered before the span pass, its lowered text contains one of the fixed
API keywords, and its stripped text is under 50 characters; all other
spans are skipped (and skipping is silent — the pass is a total
function). -/
theorem c9_span_rules (root : HNode) (pn : NPath × HNode)
    (hmem : pn ∈ (spanPass root).1) :
    pn.1 ∉ (bqPass root).2 ∧
    (∃ kw ∈ apiSpanKeywords, strHasSub kw (lowerStr (stext pn.2))) ∧
    (stext pn.2).length < 50 := by
  have h := runPass_rec_pred true predSpan coverSelf
    (findAll ["span"] root) (bqPass root).2 pn hmem
  refine ⟨h.2 rfl, ?_, ?_⟩
  · have hp := h.1
    rw [predSpan, Bool.and_eq_true, List.any_eq_true] at hp
    obtain ⟨kw, hkw, hc⟩ := hp.2
    exact ⟨kw, hkw, (strContains_iff _ _).1 hc⟩
  · have hp := h.1
    rw [predSpan, Bool.and_eq_true, decide_eq_true_eq] at hp
    exact hp.1.2.2

/-- Witness fixture: a standalone span whose text mentions `bearer`. -/
def spanW : HNode := .elem "span" [] [.text "Bearer token required"]

def rootW : HNode := .elem "[document]" [] [spanW]

theorem c9_witness :
    [0] ∉ (bqPass rootW).2 ∧ (stext spanW).length < 50 := by
  have hmem : ([0], spanW) ∈ (spanPass rootW).1 := by
    have h : (spanPass rootW).1 = [([0], spanW)] := by rfl
    rw [h]
    exact List.mem_singleton.mpr rfl
  exact ⟨(c9_span_rules rootW ([0], spanW) hmem).1,
    (c9_span_rules rootW ([0], spanW) hmem).2.2⟩

/-! ## Claim C6: every node has at most one category -/

theorem subOf_path (i : Nat) (c : HNode) :
    ∀ pn ∈ subOf i c, ∃ q, pn.1 = i :: q := by
  cases c with
  | text s => intro pn h; simp [subOf] at h
  | elem t cl cc =>
    intro pn h
    rw [subOf] at h
    rcases List.mem_cons.1 h with rfl | h'
    · exact ⟨[], rfl⟩
    · obtain ⟨q, _, rfl⟩ := List.mem_map.1 h'
      exact ⟨q.1, rfl⟩

theorem elemsFrom_head (cs : List HNode) :
    ∀ i, ∀ pn ∈ elemsFrom i cs, ∃ j q, pn.1 = j :: q ∧ i ≤ j := by
  induction cs with
  | nil => intro i pn h; simp [elemsFrom] at h
  | cons c cs ih =>
    intro i pn h
    rw [elemsFrom] at h
    rcases List.mem_append.1 h with h' | h'
    · obtain ⟨q, hq⟩ := subOf_path i c pn h'
      exact ⟨i, q, hq, Nat.le_refl i⟩
    · obtain ⟨j, q, hq, hij⟩ := ih (i + 1) pn h'
      exact ⟨j, q, hq, Nat.le_trans (Nat.le_succ i) hij⟩

mutual

theorem nodupElemsFrom (i : Nat) (cs : List HNode) :
    ((elemsFrom i cs).map Prod.fst).Nodup := by
  cases cs with
  | nil => simp [elemsFrom]
  | cons c cs =>
    rw [elemsFrom, List.map_append]
    refine List.Nodup.append (nodupSubOf i c) (nodupElemsFrom (i + 1) cs) ?_
    intro p hp1 hp2
    obtain ⟨pn1, hpn1, rfl⟩ := List.mem_map.1 hp1
    obtain ⟨q1, hq1⟩ := subOf_path i c pn1 hpn1
    obtain ⟨pn2, hpn2, hfst⟩ := List.mem_map.1 hp2
    obtain ⟨j, q2, hq2, hij⟩ := elemsFrom_head cs (i + 1) pn2 hpn2
    rw [hq1] at hfst
    rw [hq2] at hfst
    injection hfst with h1 h2
    omega

theorem nodupSubOf (i : Nat) (c : HNode) :
    ((subOf i c).map Prod.fst).Nodup := by
  cases c with
  | text s => simp [subOf]
  | elem t cl cc =>
    rw [subOf]
    simp only [List.map_cons, List.map_map]
    rw [List.nodup_cons]
    constructor
    · intro hmem
      obtain ⟨pn, hpn, hfst⟩ := List.mem_map.1 hmem
      obtain ⟨j, q, hq, _⟩ := elemsFrom_head cc 0 pn hpn
      simp [Function.comp, hq] at hfst
    · have h := nodupElemsFrom 0 cc
      have : (elemsFrom 0 cc).map (Prod.fst ∘ fun q => ((i :: q.1 : NPath), q.2)) =
          ((elemsFrom 0 cc).map Prod.fst).map (fun p => i :: p) := by
        rw [List.map_map]
        rfl
      rw [this]
      exact h.map (fun a b hab => by simpa using hab)

end

theorem allElems_nodup (r : HNode) : ((allElems r).map Prod.fst).Nodup := by
  cases r with
  | text s => simp [allElems]
  | elem t cl cs =>
    rw [allElems]
    exact nodupElemsFrom 0 cs

theorem nodup_fst_eq {l : List (NPath × HNode)} (h : (l.map Prod.fst).Nodup)
    {p : NPath} {a b : HNode} (ha : (p, a) ∈ l) (hb : (p, b) ∈ l) : a = b := by
  induction l with
  | nil => cases ha
  | cons x xs ih =>
    rw [List.map_cons, List.nodup_cons] at h
    rcases List.mem_cons.1 ha with rfl | ha' <;> rcases List.mem_cons.1 hb with heq | hb'
    · exact (Prod.mk.injEq _ _ _ _ ▸ heq.symm).2
    · exact absurd (List.mem_map.2 ⟨(p, b), hb', rfl⟩) h.1
    · exfalso
      apply h.1
      have hx : x.1 = p := by rw [← heq]
      rw [hx]
      exact List.mem_map.2 ⟨(p, a), ha', rfl⟩
    · exact ih h.2 ha' hb'

theorem findAll_mem {tags : List String} {root : HNode} {pn : NPath × HNode}
    (h : pn ∈ findAll tags root) : pn ∈ allElems root ∧ tagOf pn.2 ∈ tags := by
  rw [findAll] at h
  have h' := List.mem_filter.1 h
  exact ⟨h'.1, by simpa using h'.2⟩

theorem findAll_nodup (tags : List String) (root : HNode) :
    ((findAll tags root).map Prod.fst).Nodup := by
  have hsub : (findAll tags root).Sublist (allElems root) := List.filter_sublist _
  exact (allElems_nodup root).sublist (hsub.map Prod.fst)

/-- The unique category whose `find_all` tag set contains a given tag. -/
def tagCat (t : String) : Option Cat :=
  if t ∈ tagsOf Cat.codeB then some Cat.codeB
  else if t ∈ tagsOf Cat.table then some Cat.table
  else if t ∈ tagsOf Cat.heading then some Cat.heading
  else if t ∈ tagsOf Cat.listC then some Cat.listC
  else if t ∈ tagsOf Cat.sectionC then some Cat.sectionC
  else if t ∈ tagsOf Cat.divC then some Cat.divC
  else if t ∈ tagsOf Cat.paraC then some Cat.paraC
  else if t ∈ tagsOf Cat.bqC then some Cat.bqC
  else if t ∈ tagsOf Cat.spanC then some Cat.spanC
  else none

theorem tagCat_of_mem : ∀ (c : Cat) (t : String), t ∈ tagsOf c → tagCat t = some c := by
  intro c t h
  cases c <;> (fin_cases h <;> rfl)

theorem emittedIn_sublist (c : Cat) (root : HNode) :
    (emittedIn c root).Sublist (findAll (tagsOf c) root) := by
  cases c with
  | codeB => exact List.filter_sublist _
  | table => exact List.filter_sublist _
  | heading => exact List.Sublist.refl _
  | listC => exact List.filter_sublist _
  | sectionC =>
    exact runPass_rec_sub false predSection coverDesc (findAll (tagsOf Cat.sectionC) root) []
  | divC =>
    exact runPass_rec_sub true predDiv coverDesc (findAll (tagsOf Cat.divC) root) (secPass root).2
  | paraC =>
    exact runPass_rec_sub true predPara coverDescSelf (findAll (tagsOf Cat.paraC) root) (divPass root).2
  | bqC =>
    exact runPass_rec_sub true predBq coverDescSelf (findAll (tagsOf Cat.bqC) root) (paraPass root).2
  | spanC =>
    exact runPass_rec_sub true predSpan coverSelf (findAll (tagsOf Cat.spanC) root) (bqPass root).2

/-- C6 (confirmed): a node (identified by its document path) is emitted
under at most one of the nine category outputs, and within a category it
is emitted at most once: the nine `find_all` tag sets are pairwise
disjoint and each pass emits a sublist of its `find_all` result. -/
theorem c6_single_category :
    (∀ (root : HNode) (c1 c2 : Cat) (p : NPath) (n1 n2 : HNode),
      (p, n1) ∈ emittedIn c1 root → (p, n2) ∈ emittedIn c2 root →
      c1 = c2 ∧ n1 = n2) ∧
    (∀ (c : Cat) (root : HNode), ((emittedIn c root).map Prod.fst).Nodup) := by
  constructor
  · intro root c1 c2 p n1 n2 h1 h2
    have hf1 := findAll_mem ((emittedIn_sublist c1 root).subset h1)
    have hf2 := findAll_mem ((emittedIn_sublist c2 root).subset h2)
    have hn : n1 = n2 := nodup_fst_eq (allElems_nodup root) hf1.1 hf2.1
    subst hn
    have hc1 := tagCat_of_mem c1 (tagOf n1) hf1.2
    have hc2 := tagCat_of_mem c2 (tagOf n1) hf2.2
    rw [hc1] at hc2
    exact ⟨Option.some.injEq _ _ ▸ hc2, rfl⟩
  · intro c root
    exact (findAll_nodup (tagsOf c) root).sublist ((emittedIn_sublist c root).map Prod.fst)

theorem c6_witness :
    (Cat.spanC = Cat.spanC ∧ spanW = spanW) ∧
    ((emittedIn Cat.heading rootW).map Prod.fst).Nodup := by
  have hmem : ([0], spanW) ∈ emittedIn Cat.spanC rootW := by
    have h : emittedIn Cat.spanC rootW = [([0], spanW)] := by rfl
    rw [h]
    exact List.mem_singleton.mpr rfl
  exact ⟨c6_single_category.1 rootW Cat.spanC Cat.spanC [0] spanW spanW hmem hmem,
    c6_single_category.2 Cat.heading rootW⟩

/-- A page whose first table fragment (25010 characters) would blow the
budget while its second (12 characters) fits. -/
def pageC4 : PageData :=
  ⟨"T", [], [⟨repChar 25000 'a'⟩, ⟨"ab"⟩], [], [], [], [], [], [], []⟩

/-- C4 counterexample: the first table fragment would push the size past
the ceiling and is dropped, yet the second, later fragment of the same
category is still appended — contradicting the claim that the fragment
"and all later fragments of that category" are dropped. -/
theorem c4_counterexample :
    (chkFold (asm1 pageC4).tot (tableAdds pageC4)).1 = ["```\nab\n```\n\n"] ∧
    maxSize ≤ (asm1 pageC4).tot + ("```\n" ++ repChar 25000 'a' ++ "\n```\n\n").length := by
  have htot : (asm1 pageC4).tot = 5 := by decide
  have hstrip : stripStr (repChar 25000 'a') = repChar 25000 'a' :=
    stripStr_repChar (by decide) 25000
  have hne : repChar 25000 'a' ≠ "" := repChar_ne_empty (by decide) 'a'
  have ht : pageC4.tables = [⟨repChar 25000 'a'⟩, ⟨"ab"⟩] := rfl
  have htabs : tableAdds pageC4 =
      ["```\n" ++ repChar 25000 'a' ++ "\n```\n\n", "```\nab\n```\n\n"] := by
    simp [tableAdds, ht, hstrip, hne]
    decide
  have hlen : ("```\n" ++ repChar 25000 'a' ++ "\n```\n\n").length = 25010 := by
    simp [len_append, length_repChar]
    decide
  have hlen2 : ("```\nab\n```\n\n" : String).length = 12 := by decide
  constructor
  · rw [htot, htabs]
    simp [chkFold, hlen, hlen2, maxSize]
  · rw [htot, hlen]
    decide

end ConnectorAgent
